import Mathlib

/-!
Verification of `list_leaf_taxa_by_date.py` (iNaturalist leaf-taxa report).

The script has two components: an incremental fetcher (`fetch_observations`)
that merges paginated remote results with a local cache, and a leaf-taxon
reducer (the body of `list_leaf_taxa_by_date`) that builds a taxon map,
excludes ancestor taxa, collapses infra-specific ranks to species, and emits
report rows sorted by first-observed date.

Modelling conventions:
* Python strings are `PyStr := List Char`; string comparison is the
  lexicographic (linear) order on `List Char`, and `min(a, b)` is `pymin`.
* Python dicts are insertion-ordered association lists (`Dict`): assigning an
  existing key updates it in place, a new key is appended at the end.
* Fallible operations (`dict[k]` raising `KeyError`, `word[0]` raising
  `IndexError`) return `Option`.
* Taxon and observation ids are `Nat`; Python truthiness of an id
  (`if species_id:`) is `≠ 0`, truthiness of an optional string is
  "present and non-empty".
* The HTTP dialogue is a script: the list of responses the remote source
  answers with, consumed one per request; retried requests (429 / other
  non-200) consume the next response of the script.
-/

namespace INat

/-- Python strings, as character lists (ordered lexicographically, which is
Python's string order; for ISO "YYYY-MM-DD" dates this is date order). -/
abbrev PyStr := List Char

/-- Literal helper: the character list of a Lean string literal. -/
def pys (s : String) : PyStr := s.data

/-- A taxon record as read from an observation's `taxon` field.
`rank` and `name` model `taxon.get("rank")` / `taxon.get("name")` (absent ⇒
`none`); `preferred_common_name` models `taxon.get("preferred_common_name", "")`
before the default is applied. -/
structure Taxon where
  id : Nat
  rank : Option PyStr
  ancestor_ids : List Nat
  name : Option PyStr
  preferred_common_name : Option PyStr
deriving DecidableEq

/-- An observation record. `taxon = none` models a missing or falsy `taxon`
(`if not taxon: continue`); `observed_on` models `observation.get("observed_on")`. -/
structure Observation where
  id : Nat
  observed_on : Option PyStr
  taxon : Option Taxon
deriving DecidableEq

/-- The derived per-taxon record built at lines 84-90 of the source. -/
structure TaxonInfo where
  id : Nat
  rank : Option PyStr
  ancestor_ids : List Nat
  name : Option PyStr
  common_name : PyStr
deriving DecidableEq

/-- Insertion-ordered map with `Nat` keys, modelling a Python dict. -/
abbrev Dict (α : Type) := List (Nat × α)

/-- `d[k]` / `d.get(k)`: the value at the first (and, for dicts built by
`Dict.insert`, only) occurrence of key `k`. -/
def Dict.find? {α : Type} : Dict α → Nat → Option α
  | [], _ => none
  | p :: rest, k => if p.1 = k then some p.2 else Dict.find? rest k

/-- `d[k] = v`: update in place when the key exists (Python keeps the key's
position), append otherwise (Python appends new keys in insertion order). -/
def Dict.insert {α : Type} (d : Dict α) (k : Nat) (v : α) : Dict α :=
  if (Dict.find? d k).isSome then
    d.map (fun p => if p.1 = k then (k, v) else p)
  else d ++ [(k, v)]

/-- The key sequence of a dict. -/
def Dict.keys {α : Type} (d : Dict α) : List Nat := d.map Prod.fst

/-- Python `min` on strings: the first argument when it compares
less-or-equal. -/
def pymin (a b : PyStr) : PyStr := if a ≤ b then a else b

/-- Python `str.lower()`, character by character. -/
def pyLower (s : PyStr) : PyStr := s.map Char.toLower

/-- Python truthiness of `observation.get("observed_on")`: `None` and the
empty string are falsy (`if obs_date:` in the source). -/
def truthyDate : Option PyStr → Option PyStr
  | none => none
  | some s => if s = [] then none else some s

/-- The sentinel used by the source for missing dates: `"9999-99-99"`. -/
def sentinel : PyStr := pys "9999-99-99"

/-- `INFRARANKS` from the source. -/
def INFRARANKS : List PyStr :=
  [pys "subspecies", pys "variety", pys "form", pys "infraspecies",
   pys "subvariety", pys "subform", pys "cultivar", pys "race"]

/-- One iteration of the observation loop (source lines 73-97): skip
observations without a taxon, store/overwrite the `TaxonInfo` (ancestor list
with the taxon's own id filtered out), and fold the minimum observed date. -/
def processObs (acc : Dict TaxonInfo × Dict PyStr) (o : Observation) :
    Dict TaxonInfo × Dict PyStr :=
  match o.taxon with
  | none => acc
  | some t =>
    let tid := t.id
    let info : TaxonInfo :=
      { id := tid
        rank := t.rank
        ancestor_ids := t.ancestor_ids.filter (fun a => decide (a ≠ tid))
        name := t.name
        common_name := t.preferred_common_name.getD [] }
    let infos := Dict.insert acc.1 tid info
    let dates :=
      match truthyDate o.observed_on with
      | none => acc.2
      | some d =>
        match Dict.find? acc.2 tid with
        | some prev => Dict.insert acc.2 tid (pymin prev d)
        | none => Dict.insert acc.2 tid d
    (infos, dates)

/-- The observation loop: builds `taxon_id_to_info` and
`taxon_id_to_date_first_observed`. -/
def buildMaps : List Observation → Dict TaxonInfo × Dict PyStr →
    Dict TaxonInfo × Dict PyStr
  | [], acc => acc
  | o :: rest, acc => buildMaps rest (processObs acc o)

/-- The two maps built from the full observation list (both start empty). -/
def taxonMaps (obs : List Observation) : Dict TaxonInfo × Dict PyStr :=
  buildMaps obs ([], [])

/-- The set (as a list; only membership is used) of all ids appearing in any
stored taxon's ancestor list (source lines 100-102). -/
def allAncestorIds (infos : Dict TaxonInfo) : List Nat :=
  infos.flatMap (fun p => p.2.ancestor_ids)

/-- Ancestor exclusion (source lines 104-108): taxa whose id appears in some
stored ancestor list are dropped from the leaf-candidate set. -/
def leafCandidates (infos : Dict TaxonInfo) : Dict TaxonInfo :=
  infos.filter (fun p => decide (p.1 ∉ allAncestorIds infos))

/-- The reverse scan of source lines 116-122, applied to the already-reversed
ancestor list: the first ancestor id that is a key of `infos` whose stored
rank is exactly `"species"`, together with its stored info. -/
def findSpeciesAncestor (infos : Dict TaxonInfo) : List Nat → Option (Nat × TaxonInfo)
  | [] => none
  | aid :: rest =>
    match Dict.find? infos aid with
    | some a =>
      if a.rank = some (pys "species") then some (aid, a)
      else findSpeciesAncestor infos rest
    | none => findSpeciesAncestor infos rest

/-- The species a leaf candidate collapses into, if any (source lines
113-122 and the `if species_id:` truthiness test on line 124: a found species
ancestor with id `0` is falsy and does NOT collapse). -/
def collapseTarget (infos : Dict TaxonInfo) (p : Nat × TaxonInfo) :
    Option (Nat × TaxonInfo) :=
  if pyLower (p.2.rank.getD []) ∈ INFRARANKS then
    match findSpeciesAncestor infos p.2.ancestor_ids.reverse with
    | some sp => if sp.1 = 0 then none else some sp
    | none => none
  else none

/-- One iteration of the collapse loop (source lines 112-133): a collapsing
candidate inserts its species parent (at the parent's own stored id,
`parent["id"]`) and folds the parent's date with the candidate's date
(missing dates become the sentinel); a non-collapsing candidate is kept
as-is. -/
def collapseStep (infos : Dict TaxonInfo) (acc : Dict TaxonInfo × Dict PyStr)
    (p : Nat × TaxonInfo) : Dict TaxonInfo × Dict PyStr :=
  match collapseTarget infos p with
  | some sp =>
    (Dict.insert acc.1 sp.2.id sp.2,
     Dict.insert acc.2 sp.2.id
       (pymin ((Dict.find? acc.2 sp.2.id).getD sentinel)
              ((Dict.find? acc.2 p.1).getD sentinel)))
  | none => (Dict.insert acc.1 p.1 p.2, acc.2)

/-- The collapse loop over a candidate list. -/
def collapseFold (infos : Dict TaxonInfo) :
    List (Nat × TaxonInfo) → Dict TaxonInfo × Dict PyStr →
    Dict TaxonInfo × Dict PyStr
  | [], acc => acc
  | p :: rest, acc => collapseFold infos rest (collapseStep infos acc p)

/-- The collapsed output map and the (mutated) date map, starting from the
leaf candidates and the dates of step 1 (`collapsed_taxon_id_to_info` starts
empty). -/
def collapseAll (infos : Dict TaxonInfo) (dates : Dict PyStr) :
    Dict TaxonInfo × Dict PyStr :=
  collapseFold infos (leafCandidates infos) ([], dates)

/-- Stable insertion of `x` after every element whose key is ≤ its own. -/
def insertByKey {α : Type} (key : α → PyStr) (x : α) : List α → List α
  | [] => [x]
  | y :: ys => if key y ≤ key x then y :: insertByKey key x ys else x :: y :: ys

/-- Python's stable `sorted(l, key=...)`: a stable sort is unique, so stable
insertion sort produces exactly `sorted`'s output. -/
def stableSortByKey {α : Type} (key : α → PyStr) (l : List α) : List α :=
  l.foldl (fun acc x => insertByKey key x acc) []

/-- The sort of source lines 137-143: by first-observed date, missing dates
keyed by the sentinel (`dict.get(taxon_id, "9999-99-99")`). -/
def sortedTaxa (final : Dict TaxonInfo) (dates : Dict PyStr) :
    List (Nat × TaxonInfo) :=
  stableSortByKey (fun p => (Dict.find? dates p.1).getD sentinel) final

/-- The sorted final leaf output of the reducer for an observation list. -/
def leafOutput (obs : List Observation) : List (Nat × TaxonInfo) :=
  sortedTaxa (collapseAll (taxonMaps obs).1 (taxonMaps obs).2).1
    (collapseAll (taxonMaps obs).1 (taxonMaps obs).2).2

/-! ## `title_case` and the report rows -/

/-- `UNKNOWN` from the source. -/
def UNKNOWN : PyStr := pys "<Unknown>"

/-- Python `str.split()` with no argument: split on runs of whitespace,
dropping empty tokens. -/
def pySplitAux : PyStr → PyStr → List PyStr
  | [], cur => if cur = [] then [] else [cur.reverse]
  | c :: rest, cur =>
    if c.isWhitespace then
      if cur = [] then pySplitAux rest [] else cur.reverse :: pySplitAux rest []
    else pySplitAux rest (c :: cur)

/-- `text.split()`. -/
def pySplit (s : PyStr) : List PyStr := pySplitAux s []

/-- `word[0].upper() + word[1:]`: `none` models the `IndexError` that
`word[0]` would raise on an empty token. -/
def wordTitle : PyStr → Option PyStr
  | [] => none
  | c :: rest => some (c.toUpper :: rest)

/-- The list comprehension `[word[0].upper() + word[1:] for word in words]`:
`none` when any token would raise. -/
def mapWordTitle : List PyStr → Option (List PyStr)
  | [] => some []
  | w :: ws =>
    match wordTitle w, mapWordTitle ws with
    | some t, some ts => some (t :: ts)
    | _, _ => none

/-- `title_case` (source lines 304-307): `" ".join([word[0].upper() + word[1:]
for word in text.split()])`; `none` models an uncaught `IndexError`. -/
def titleCase (text : PyStr) : Option PyStr :=
  (mapWordTitle (pySplit text)).map (List.intercalate (pys " "))

/-- `title_case(x) or UNKNOWN` (source lines 168-169): an empty rendered name
is falsy and becomes the literal unknown marker. -/
def orUnknown (s : PyStr) : PyStr := if s = [] then UNKNOWN else s

/-- `title_case(x) or UNKNOWN` as one operation, as the report applies it to
the common and scientific names (source lines 168-169). -/
def renderName (s : PyStr) : Option PyStr := (titleCase s).map orUnknown

/-- `TAXON_URL_TP.format(taxon_id=taxon_id)`. -/
def taxonUrl (tid : Nat) : PyStr := pys "https://www.inaturalist.org/taxa/" ++ (toString tid).data

/-- One CSV/console row (source lines 165-173), in source evaluation order:
`date = taxon_id_to_date_first_observed[taxon_id]` is a bare dict indexing
(`none` models its `KeyError`); `title_case` of a `None` name or rank would
raise as well (`none`). -/
def reportRow (dates : Dict PyStr) (i : Nat) (p : Nat × TaxonInfo) :
    Option (List PyStr) := do
  let date ← Dict.find? dates p.1
  let commonT ← titleCase p.2.common_name
  let name ← p.2.name
  let sciT ← titleCase name
  let rank ← p.2.rank
  let rankT ← titleCase rank
  pure [(toString i).data, date, orUnknown commonT, orUnknown sciT, rankT,
        taxonUrl p.1]

/-- The full row sequence, indices starting at 1; `none` when producing any
row raises. -/
def rowsFrom (dates : Dict PyStr) : Nat → List (Nat × TaxonInfo) →
    Option (List (List PyStr))
  | _, [] => some []
  | i, p :: rest =>
    match reportRow dates i p, rowsFrom dates (i + 1) rest with
    | some row, some rows => some (row :: rows)
    | _, _ => none

/-- All report rows of the reducer, in output order. -/
def finalRows (obs : List Observation) : Option (List (List PyStr)) :=
  rowsFrom (collapseAll (taxonMaps obs).1 (taxonMaps obs).2).2 1
    (leafOutput obs)

/-! ## The incremental fetcher -/

/-- One HTTP response of the remote source: a status code, and the `results`
array (meaningful when the status is 200). -/
structure HttpResponse where
  status : Nat
  results : List Observation
deriving DecidableEq

/-- `PER_PAGE` from the source. -/
def PER_PAGE : Nat := 200

/-- The paginated fetch loop (source lines 250-279) run against a response
script, accumulating `new_observations`. Returns `none` when the script is
exhausted while the loop would keep requesting; otherwise
`some (new_observations, valid_request)`:
* 429 → sleep and retry (the retry consumes the next scripted response);
* 422 → break with `valid_request = False`;
* other non-200 → sleep and retry;
* 200 → break on an empty `results`, extend, break when the page is short,
  otherwise request the next page. -/
def fetchLoop : List HttpResponse → List Observation →
    Option (List Observation × Bool)
  | [], _ => none
  | r :: rest, acc =>
    if r.status = 429 then fetchLoop rest acc
    else if r.status = 422 then some (acc, false)
    else if r.status ≠ 200 then fetchLoop rest acc
    else if r.results = [] then some (acc, true)
    else if r.results.length < PER_PAGE then some (acc ++ r.results, true)
    else fetchLoop rest (acc ++ r.results)

/-- `observations + [o for o in new_observations if o["id"] not in existing_ids]`
(source lines 282-287): newly fetched records already cached by id are
dropped; the rest are appended after the cached records. -/
def mergeObservations (cache newObs : List Observation) : List Observation :=
  cache ++ newObs.filter (fun o => !(cache.any (fun c => c.id == o.id)))

/-- What `fetch_observations` returns and what it writes:
`cacheWrite = some content` models rewriting the cache file with `content`,
`none` models leaving the file untouched. -/
structure FetchResult where
  returned : List Observation
  cacheWrite : Option (List Observation)
deriving DecidableEq

/-- `fetch_observations` (source lines 204-301) with the cache file contents
and the response script made explicit: when the loop accumulated any new
observations they are deduplicated against cached ids, merged, persisted and
returned; otherwise the cached list is returned unchanged and the cache file
is not rewritten. -/
def fetchObservations (cache : List Observation) (script : List HttpResponse) :
    Option FetchResult :=
  match fetchLoop script [] with
  | none => none
  | some (newObs, _valid) =>
    if newObs = [] then some ⟨cache, none⟩
    else
      some ⟨mergeObservations cache newObs, some (mergeObservations cache newObs)⟩

/-! ## The cache write as a file-system step sequence -/

/-- The possible cache-file states while persisting: the previous content,
truncated-but-not-yet-written, or the new content. -/
inductive CacheFileState where
  | intact : List Observation → CacheFileState
  | truncated : CacheFileState
  | written : List Observation → CacheFileState
deriving DecidableEq

/-- The recoverable content of a cache-file state, if any. -/
def contentOf : CacheFileState → Option (List Observation)
  | .intact c => some c
  | .truncated => none
  | .written c => some c

/-- The cache-file state after each prefix of the source's persist procedure
(lines 289-290): before anything, after `open(obs_cache_fp, "w")` — which
truncates the target in place — and after `json.dump` completes. A crash
between the `open` and the completed `dump` leaves the middle state. -/
def persistStates (old new : List Observation) : List CacheFileState :=
  [.intact old, .truncated, .written new]

/-! ## Derived notions used to state the claims -/

/-- The key a candidate contributes to the collapsed output: its species
parent's id when it collapses, its own key otherwise. -/
def stepKey (infos : Dict TaxonInfo) (p : Nat × TaxonInfo) : Nat :=
  match collapseTarget infos p with
  | some sp => sp.2.id
  | none => p.1

/-- Whether leaf candidate `q` collapses into the species with id `s`. -/
def collapsesInto (infos : Dict TaxonInfo) (s : Nat) (q : Nat × TaxonInfo) : Bool :=
  match collapseTarget infos q with
  | some sp => sp.2.id == s
  | none => false

/-- Date-folding as the collapse loop performs it at one key: each step
replaces the accumulator with `min(acc or sentinel, d)`. -/
def minAccum : Option PyStr → List PyStr → Option PyStr
  | m, [] => m
  | m, d :: ds => minAccum (some (pymin (m.getD sentinel) d)) ds

/-- The leaf candidates of `obs` that collapse into the species with id `s`. -/
def collapsedInto (obs : List Observation) (s : Nat) : List (Nat × TaxonInfo) :=
  (leafCandidates (taxonMaps obs).1).filter (collapsesInto (taxonMaps obs).1 s)

/-- Every first-observed date relevant to collapsed species `s`: its own
entry in the step-1 date map (the minimum over its direct observations), and
the entries of all candidates that collapse into it. Missing entries
contribute nothing. -/
def knownDates (obs : List Observation) (s : Nat) : List PyStr :=
  (Dict.find? (taxonMaps obs).2 s).toList ++
    (collapsedInto obs s).filterMap (fun q => Dict.find? (taxonMaps obs).2 q.1)

end INat

/-! ## Dictionary lemmas -/

namespace INat

theorem Dict.find?_map_update {α : Type} (d : Dict α) (k : Nat) (v : α) :
    Dict.find? (d.map (fun p => if p.1 = k then (k, v) else p)) k =
      if (Dict.find? d k).isSome then some v else none := by
  induction d with
  | nil => simp [Dict.find?]
  | cons p rest ih =>
    by_cases h : p.1 = k
    · simp [Dict.find?, h]
    · simp [Dict.find?, h, ih]

theorem Dict.find?_map_update_ne {α : Type} (d : Dict α) (k a : Nat) (v : α)
    (h : a ≠ k) :
    Dict.find? (d.map (fun p => if p.1 = k then (k, v) else p)) a =
      Dict.find? d a := by
  induction d with
  | nil => rfl
  | cons p rest ih =>
    by_cases hp : p.1 = k
    · simp [Dict.find?, hp, Ne.symm h, ih]
    · by_cases ha : p.1 = a <;> simp [Dict.find?, hp, ha, h, ih]

theorem Dict.find?_append {α : Type} (d l : Dict α) (k : Nat) :
    Dict.find? (d ++ l) k =
      match Dict.find? d k with
      | some v => some v
      | none => Dict.find? l k := by
  induction d with
  | nil => simp [Dict.find?]
  | cons p rest ih =>
    by_cases h : p.1 = k <;> simp [Dict.find?, h, ih]

theorem Dict.find?_insert_self {α : Type} (d : Dict α) (k : Nat) (v : α) :
    Dict.find? (Dict.insert d k v) k = some v := by
  unfold Dict.insert
  by_cases hs : (Dict.find? d k).isSome
  · simp [hs, Dict.find?_map_update]
  · simp only [hs, if_false, Bool.false_eq_true]
    rw [Dict.find?_append]
    rw [Option.not_isSome_iff_eq_none] at hs
    simp [hs, Dict.find?]

theorem Dict.find?_insert_ne {α : Type} (d : Dict α) (k a : Nat) (v : α)
    (h : a ≠ k) :
    Dict.find? (Dict.insert d k v) a = Dict.find? d a := by
  unfold Dict.insert
  by_cases hs : (Dict.find? d k).isSome
  · simp [hs, Dict.find?_map_update_ne d k a v h]
  · simp only [hs, if_false, Bool.false_eq_true]
    rw [Dict.find?_append]
    cases hfa : Dict.find? d a with
    | some w => rfl
    | none => simp [Dict.find?, Ne.symm h]

theorem Dict.mem_keys_iff_find? {α : Type} (d : Dict α) (k : Nat) :
    k ∈ Dict.keys d ↔ (Dict.find? d k).isSome := by
  induction d with
  | nil => simp [Dict.keys, Dict.find?]
  | cons p rest ih =>
    rw [show Dict.keys (p :: rest) = p.1 :: Dict.keys rest from rfl,
      List.mem_cons]
    by_cases h : p.1 = k
    · simp [Dict.find?, h]
    · simp only [Dict.find?, h, if_false]
      constructor
      · rintro (h1 | h2)
        · exact absurd h1.symm h
        · exact ih.1 h2
      · intro hs
        exact Or.inr (ih.2 hs)

theorem Dict.keys_insert {α : Type} (d : Dict α) (k : Nat) (v : α) :
    Dict.keys (Dict.insert d k v) =
      if (Dict.find? d k).isSome then Dict.keys d else Dict.keys d ++ [k] := by
  unfold Dict.insert
  by_cases hs : (Dict.find? d k).isSome
  · simp only [hs, if_true]
    unfold Dict.keys
    rw [List.map_map]
    exact List.map_congr_left (fun p _ => by by_cases h : p.1 = k <;> simp [h])
  · simp [hs, Dict.keys]

theorem Dict.mem_keys_insert {α : Type} (d : Dict α) (k a : Nat) (v : α) :
    a ∈ Dict.keys (Dict.insert d k v) ↔ a = k ∨ a ∈ Dict.keys d := by
  rw [Dict.keys_insert]
  by_cases hs : (Dict.find? d k).isSome
  · simp only [hs, if_true]
    constructor
    · exact Or.inr
    · rintro (rfl | h)
      · exact (Dict.mem_keys_iff_find? d a).2 hs
      · exact h
  · simp only [hs, if_false, Bool.false_eq_true, List.mem_append,
      List.mem_singleton]
    tauto

theorem Dict.nodup_keys_insert {α : Type} (d : Dict α) (k : Nat) (v : α)
    (h : (Dict.keys d).Nodup) : (Dict.keys (Dict.insert d k v)).Nodup := by
  rw [Dict.keys_insert]
  by_cases hs : (Dict.find? d k).isSome
  · simp only [hs, if_true]
    exact h
  · simp only [hs, if_false, Bool.false_eq_true]
    rw [List.nodup_append]
    refine ⟨h, List.nodup_singleton k, fun a ha hb => ?_⟩
    rw [List.mem_singleton] at hb
    subst hb
    rw [Dict.mem_keys_iff_find? d a] at ha
    exact absurd ha hs

theorem Dict.mem_of_mem_insert {α : Type} (d : Dict α) (k : Nat) (v : α)
    (p : Nat × α) (h : p ∈ Dict.insert d k v) : p = (k, v) ∨ p ∈ d := by
  unfold Dict.insert at h
  by_cases hs : (Dict.find? d k).isSome
  · simp only [hs, if_true] at h
    rw [List.mem_map] at h
    obtain ⟨q, hq, he⟩ := h
    by_cases hk : q.1 = k
    · left
      rw [← he, if_pos hk]
    · right
      rw [← he, if_neg hk]
      exact hq
  · simp only [hs, if_false, Bool.false_eq_true, List.mem_append,
      List.mem_singleton] at h
    tauto

theorem Dict.mem_of_find?_eq_some {α : Type} (d : Dict α) (k : Nat) (v : α)
    (h : Dict.find? d k = some v) : (k, v) ∈ d := by
  induction d with
  | nil => simp [Dict.find?] at h
  | cons p rest ih =>
    by_cases hp : p.1 = k
    · simp only [Dict.find?, hp, if_true, Option.some.injEq] at h
      rw [← hp, ← h]
      exact List.mem_cons_self p rest
    · simp only [Dict.find?, hp, if_false] at h
      exact List.mem_cons_of_mem p (ih h)

theorem Dict.find?_eq_some_of_mem {α : Type} (d : Dict α) (k : Nat) (v : α)
    (hnd : (Dict.keys d).Nodup) (h : (k, v) ∈ d) : Dict.find? d k = some v := by
  induction d with
  | nil => simp at h
  | cons p rest ih =>
    have hnd' : p.1 ∉ Dict.keys rest ∧ (Dict.keys rest).Nodup := by
      rw [show Dict.keys (p :: rest) = p.1 :: Dict.keys rest from rfl,
        List.nodup_cons] at hnd
      exact hnd
    rw [List.mem_cons] at h
    rcases h with h | h
    · rw [← h]
      simp [Dict.find?]
    · by_cases hp : p.1 = k
      · exfalso
        apply hnd'.1
        rw [hp]
        exact List.mem_map.2 ⟨(k, v), h, rfl⟩
      · simp only [Dict.find?, hp, if_false]
        exact ih hnd'.2 h

end INat

/-! ## Invariants of the taxon map built in step 1 -/

namespace INat

/-- Everything `processObs` and `buildMaps` guarantee about each stored
entry: its stored id equals its key and its own id is filtered out of its
stored ancestor list. -/
def InfoInv (p : Nat × TaxonInfo) : Prop :=
  p.2.id = p.1 ∧ p.1 ∉ p.2.ancestor_ids

theorem processObs_info_inv (acc : Dict TaxonInfo × Dict PyStr)
    (o : Observation) (hacc : ∀ p ∈ acc.1, InfoInv p) :
    ∀ p ∈ (processObs acc o).1, InfoInv p := by
  intro p hp
  unfold processObs at hp
  cases ht : o.taxon with
  | none =>
    rw [ht] at hp
    exact hacc p hp
  | some t =>
    rw [ht] at hp
    simp only at hp
    rcases Dict.mem_of_mem_insert _ _ _ p hp with h | h
    · subst h
      constructor
      · rfl
      · intro hmem
        rw [List.mem_filter] at hmem
        simp at hmem
    · exact hacc p h

theorem buildMaps_info_inv (obs : List Observation)
    (acc : Dict TaxonInfo × Dict PyStr) (hacc : ∀ p ∈ acc.1, InfoInv p) :
    ∀ p ∈ (buildMaps obs acc).1, InfoInv p := by
  induction obs generalizing acc with
  | nil => exact hacc
  | cons o rest ih =>
    exact ih (processObs acc o) (processObs_info_inv acc o hacc)

theorem taxonMaps_info_inv (obs : List Observation) :
    ∀ p ∈ (taxonMaps obs).1, InfoInv p :=
  buildMaps_info_inv obs ([], []) (by intro p hp; simp at hp)

theorem processObs_nodup_keys (acc : Dict TaxonInfo × Dict PyStr)
    (o : Observation) (hacc : (Dict.keys acc.1).Nodup) :
    (Dict.keys (processObs acc o).1).Nodup := by
  unfold processObs
  cases ht : o.taxon with
  | none => exact hacc
  | some t => exact Dict.nodup_keys_insert _ _ _ hacc

theorem buildMaps_nodup_keys (obs : List Observation)
    (acc : Dict TaxonInfo × Dict PyStr) (hacc : (Dict.keys acc.1).Nodup) :
    (Dict.keys (buildMaps obs acc).1).Nodup := by
  induction obs generalizing acc with
  | nil => exact hacc
  | cons o rest ih => exact ih _ (processObs_nodup_keys acc o hacc)

theorem taxonMaps_nodup_keys (obs : List Observation) :
    (Dict.keys (taxonMaps obs).1).Nodup :=
  buildMaps_nodup_keys obs ([], []) (by simp [Dict.keys])

/-! ## Ancestor exclusion -/

theorem mem_allAncestorIds (infos : Dict TaxonInfo) (p : Nat × TaxonInfo)
    (hp : p ∈ infos) (a : Nat) (ha : a ∈ p.2.ancestor_ids) :
    a ∈ allAncestorIds infos :=
  List.mem_flatMap.2 ⟨p, hp, ha⟩

theorem mem_leafCandidates (infos : Dict TaxonInfo) (p : Nat × TaxonInfo) :
    p ∈ leafCandidates infos ↔ p ∈ infos ∧ p.1 ∉ allAncestorIds infos := by
  unfold leafCandidates
  rw [List.mem_filter]
  simp

theorem leafCandidates_nodup_keys (infos : Dict TaxonInfo)
    (h : (Dict.keys infos).Nodup) : (Dict.keys (leafCandidates infos)).Nodup :=
  h.sublist ((List.filter_sublist infos).map Prod.fst)

/-! ## The species-ancestor scan and the collapse target -/

theorem findSpeciesAncestor_spec (infos : Dict TaxonInfo) (l : List Nat)
    (sid : Nat) (parent : TaxonInfo)
    (h : findSpeciesAncestor infos l = some (sid, parent)) :
    sid ∈ l ∧ Dict.find? infos sid = some parent ∧
      parent.rank = some (pys "species") := by
  induction l with
  | nil => simp [findSpeciesAncestor] at h
  | cons aid rest ih =>
    cases hf : Dict.find? infos aid with
    | some a =>
      simp only [findSpeciesAncestor, hf] at h
      by_cases hr : a.rank = some (pys "species")
      · rw [if_pos hr] at h
        obtain ⟨rfl, rfl⟩ : aid = sid ∧ a = parent := by
          constructor <;> [exact congrArg Prod.fst (Option.some.inj h);
            exact congrArg Prod.snd (Option.some.inj h)]
        exact ⟨List.mem_cons_self aid rest, hf, hr⟩
      · rw [if_neg hr] at h
        obtain ⟨h1, h2, h3⟩ := ih h
        exact ⟨List.mem_cons_of_mem aid h1, h2, h3⟩
    | none =>
      simp only [findSpeciesAncestor, hf] at h
      obtain ⟨h1, h2, h3⟩ := ih h
      exact ⟨List.mem_cons_of_mem aid h1, h2, h3⟩

theorem collapseTarget_spec (infos : Dict TaxonInfo) (p : Nat × TaxonInfo)
    (sp : Nat × TaxonInfo) (h : collapseTarget infos p = some sp) :
    pyLower (p.2.rank.getD []) ∈ INFRARANKS ∧ sp.1 ≠ 0 ∧
      sp.1 ∈ p.2.ancestor_ids ∧ Dict.find? infos sp.1 = some sp.2 ∧
      sp.2.rank = some (pys "species") := by
  by_cases hr : pyLower (p.2.rank.getD []) ∈ INFRARANKS
  · cases hf : findSpeciesAncestor infos p.2.ancestor_ids.reverse with
    | none =>
      simp only [collapseTarget, if_pos hr, hf] at h
      exact Option.noConfusion h
    | some sp0 =>
      simp only [collapseTarget, if_pos hr, hf] at h
      by_cases h0 : sp0.1 = 0
      · rw [if_pos h0] at h
        exact absurd h (by simp)
      · rw [if_neg h0] at h
        obtain rfl : sp0 = sp := Option.some.inj h
        obtain ⟨h1, h2, h3⟩ :=
          findSpeciesAncestor_spec infos p.2.ancestor_ids.reverse sp0.1 sp0.2
            (by rw [← hf])
        exact ⟨hr, h0, List.mem_reverse.1 h1, h2, h3⟩
  · simp only [collapseTarget, if_neg hr] at h
    exact Option.noConfusion h

/-- With the step-1 invariant, a collapse target's stored id is its key, and
that key occurs in the candidate's ancestor list (hence in
`allAncestorIds`). -/
theorem collapseTarget_id (obs : List Observation) (p sp : Nat × TaxonInfo)
    (h : collapseTarget (taxonMaps obs).1 p = some sp) : sp.2.id = sp.1 := by
  obtain ⟨-, -, -, hfind, -⟩ := collapseTarget_spec _ p sp h
  exact (taxonMaps_info_inv obs (sp.1, sp.2)
    (Dict.mem_of_find?_eq_some _ _ _ hfind)).1

end INat

/-! ## Keys of the collapsed output -/

namespace INat

theorem collapseStep_keys (infos : Dict TaxonInfo)
    (acc : Dict TaxonInfo × Dict PyStr) (p : Nat × TaxonInfo) (a : Nat) :
    a ∈ Dict.keys (collapseStep infos acc p).1 ↔
      a = stepKey infos p ∨ a ∈ Dict.keys acc.1 := by
  unfold collapseStep stepKey
  cases h : collapseTarget infos p with
  | some sp => exact Dict.mem_keys_insert acc.1 sp.2.id a sp.2
  | none => exact Dict.mem_keys_insert acc.1 p.1 a p.2

theorem collapseFold_keys_mono (infos : Dict TaxonInfo)
    (l : List (Nat × TaxonInfo)) (acc : Dict TaxonInfo × Dict PyStr) (a : Nat)
    (h : a ∈ Dict.keys acc.1) :
    a ∈ Dict.keys (collapseFold infos l acc).1 := by
  induction l generalizing acc with
  | nil => exact h
  | cons p rest ih =>
    exact ih _ ((collapseStep_keys infos acc p a).2 (Or.inr h))

theorem collapseFold_keys_of_mem (infos : Dict TaxonInfo)
    (l : List (Nat × TaxonInfo)) (acc : Dict TaxonInfo × Dict PyStr)
    (q : Nat × TaxonInfo) (hq : q ∈ l) :
    stepKey infos q ∈ Dict.keys (collapseFold infos l acc).1 := by
  induction l generalizing acc with
  | nil => simp at hq
  | cons p rest ih =>
    rw [List.mem_cons] at hq
    rcases hq with rfl | hq
    · exact collapseFold_keys_mono infos rest _ _
        ((collapseStep_keys infos acc q _).2 (Or.inl rfl))
    · exact ih _ hq

theorem collapseFold_keys_src (infos : Dict TaxonInfo)
    (l : List (Nat × TaxonInfo)) (acc : Dict TaxonInfo × Dict PyStr) (a : Nat)
    (h : a ∈ Dict.keys (collapseFold infos l acc).1) :
    a ∈ Dict.keys acc.1 ∨ ∃ q ∈ l, stepKey infos q = a := by
  induction l generalizing acc with
  | nil => exact Or.inl h
  | cons p rest ih =>
    rcases ih _ h with hacc | ⟨q, hq, he⟩
    · rw [collapseStep_keys] at hacc
      rcases hacc with rfl | hacc
      · exact Or.inr ⟨p, List.mem_cons_self p rest, rfl⟩
      · exact Or.inl hacc
    · exact Or.inr ⟨q, List.mem_cons_of_mem p hq, he⟩

theorem collapseFold_nodup_keys (infos : Dict TaxonInfo)
    (l : List (Nat × TaxonInfo)) (acc : Dict TaxonInfo × Dict PyStr)
    (h : (Dict.keys acc.1).Nodup) :
    (Dict.keys (collapseFold infos l acc).1).Nodup := by
  induction l generalizing acc with
  | nil => exact h
  | cons p rest ih =>
    refine ih _ ?_
    unfold collapseStep
    cases ht : collapseTarget infos p with
    | some sp => exact Dict.nodup_keys_insert _ _ _ h
    | none => exact Dict.nodup_keys_insert _ _ _ h

/-! ## Dates of the collapsed output -/

theorem collapseFold_dates (infos : Dict TaxonInfo) (dates0 : Dict PyStr)
    (s : Nat) (l : List (Nat × TaxonInfo)) (acc : Dict TaxonInfo × Dict PyStr)
    (hdisj : ∀ q ∈ l, ∀ sp, collapseTarget infos q = some sp →
      ∀ q' ∈ l, sp.2.id ≠ q'.1)
    (hagree : ∀ q ∈ l, Dict.find? acc.2 q.1 = Dict.find? dates0 q.1) :
    Dict.find? (collapseFold infos l acc).2 s =
      minAccum (Dict.find? acc.2 s)
        ((l.filter (collapsesInto infos s)).map
          (fun q => (Dict.find? dates0 q.1).getD sentinel)) := by
  induction l generalizing acc with
  | nil => rfl
  | cons p rest ih =>
    have hdisj' : ∀ q ∈ rest, ∀ sp, collapseTarget infos q = some sp →
        ∀ q' ∈ rest, sp.2.id ≠ q'.1 :=
      fun q hq sp hsp q' hq' =>
        hdisj q (List.mem_cons_of_mem p hq) sp hsp q' (List.mem_cons_of_mem p hq')
    cases ht : collapseTarget infos p with
    | none =>
      have hstep : collapseStep infos acc p = (Dict.insert acc.1 p.1 p.2, acc.2) := by
        unfold collapseStep
        rw [ht]
      have hfilter : (p :: rest).filter (collapsesInto infos s) =
          rest.filter (collapsesInto infos s) := by
        rw [List.filter_cons]
        simp [collapsesInto, ht]
      rw [show collapseFold infos (p :: rest) acc =
          collapseFold infos rest (collapseStep infos acc p) from rfl,
        hstep, hfilter]
      exact ih _ hdisj' (fun q hq => hagree q (List.mem_cons_of_mem p hq))
    | some sp =>
      have hstep : collapseStep infos acc p =
          (Dict.insert acc.1 sp.2.id sp.2,
           Dict.insert acc.2 sp.2.id
             (pymin ((Dict.find? acc.2 sp.2.id).getD sentinel)
                    ((Dict.find? acc.2 p.1).getD sentinel))) := by
        unfold collapseStep
        rw [ht]
      have hagree' : ∀ q ∈ rest,
          Dict.find? (collapseStep infos acc p).2 q.1 = Dict.find? dates0 q.1 := by
        intro q hq
        rw [hstep]
        have hne : q.1 ≠ sp.2.id :=
          fun he => hdisj p (List.mem_cons_self p rest) sp ht q
            (List.mem_cons_of_mem p hq) he.symm
        rw [Dict.find?_insert_ne _ _ _ _ hne]
        exact hagree q (List.mem_cons_of_mem p hq)
      by_cases hs : sp.2.id = s
      · have hfilter : (p :: rest).filter (collapsesInto infos s) =
            p :: rest.filter (collapsesInto infos s) := by
          rw [List.filter_cons]
          simp [collapsesInto, ht, hs]
        rw [show collapseFold infos (p :: rest) acc =
            collapseFold infos rest (collapseStep infos acc p) from rfl,
          hfilter]
        rw [List.map_cons]
        rw [show minAccum (Dict.find? acc.2 s)
            (((Dict.find? dates0 p.1).getD sentinel) ::
              (rest.filter (collapsesInto infos s)).map
                (fun q => (Dict.find? dates0 q.1).getD sentinel)) =
          minAccum (some (pymin ((Dict.find? acc.2 s).getD sentinel)
              ((Dict.find? dates0 p.1).getD sentinel)))
            ((rest.filter (collapsesInto infos s)).map
              (fun q => (Dict.find? dates0 q.1).getD sentinel)) from rfl]
        rw [ih _ hdisj' hagree']
        congr 1
        rw [hstep]
        simp only
        rw [hs, Dict.find?_insert_self]
        rw [hagree p (List.mem_cons_self p rest)]
      · have hfilter : (p :: rest).filter (collapsesInto infos s) =
            rest.filter (collapsesInto infos s) := by
          rw [List.filter_cons]
          simp [collapsesInto, ht, hs]
        rw [show collapseFold infos (p :: rest) acc =
            collapseFold infos rest (collapseStep infos acc p) from rfl,
          hfilter]
        rw [ih _ hdisj' hagree']
        congr 1
        rw [hstep]
        simp only
        rw [Dict.find?_insert_ne _ _ _ _ (fun he => hs he.symm)]

end INat

/-! ## `pymin` and `minAccum` -/

namespace INat

theorem pymin_eq_or (a b : PyStr) : pymin a b = a ∨ pymin a b = b := by
  unfold pymin
  by_cases h : a ≤ b <;> simp [h]

theorem pymin_le_left (a b : PyStr) : pymin a b ≤ a := by
  unfold pymin
  by_cases h : a ≤ b
  · simp [h]
  · simp only [h, if_false]
    exact le_of_not_le h

theorem pymin_le_right (a b : PyStr) : pymin a b ≤ b := by
  unfold pymin
  by_cases h : a ≤ b <;> simp [h]

theorem pymin_sentinel_left (d : PyStr) (h : d < sentinel) :
    pymin sentinel d = d := by
  unfold pymin
  rw [if_neg (not_le_of_lt h)]

theorem pymin_sentinel_right (d : PyStr) (h : d ≤ sentinel) :
    pymin d sentinel = d := by
  unfold pymin
  rw [if_pos h]

theorem foldl_pymin_least (L : List PyStr) (a : PyStr) :
    L.foldl pymin a ∈ a :: L ∧ ∀ d ∈ a :: L, L.foldl pymin a ≤ d := by
  induction L generalizing a with
  | nil => simp
  | cons b L' ih =>
    obtain ⟨hmem, hle⟩ := ih (pymin a b)
    rw [List.foldl_cons]
    constructor
    · rw [List.mem_cons] at hmem
      rcases hmem with he | hmem
      · rw [he]
        rcases pymin_eq_or a b with h | h <;> rw [h] <;> simp
      · exact List.mem_cons_of_mem a (List.mem_cons_of_mem b hmem)
    · intro d hd
      rw [List.mem_cons] at hd
      rcases hd with hd | hd
      · rw [hd]
        exact le_trans (hle _ (List.mem_cons_self _ _)) (pymin_le_left a b)
      · rw [List.mem_cons] at hd
        rcases hd with hd | hd
        · rw [hd]
          exact le_trans (hle _ (List.mem_cons_self _ _)) (pymin_le_right a b)
        · exact hle d (List.mem_cons_of_mem _ hd)

theorem minAccum_known (ds : List (Option PyStr)) (a : PyStr)
    (h1 : ∀ x ∈ ds.filterMap id, x < sentinel) (h2 : a ≤ sentinel) :
    minAccum (some a) (ds.map (fun o => o.getD sentinel)) =
      some (List.foldl pymin a (ds.filterMap id)) := by
  induction ds generalizing a with
  | nil => rfl
  | cons o rest ih =>
    cases o with
    | none =>
      rw [List.map_cons,
        show minAccum (some a) ((Option.getD none sentinel) :: _) =
          minAccum (some (pymin a (Option.getD none sentinel))) _ from rfl]
      rw [show Option.getD none sentinel = sentinel from rfl]
      rw [pymin_sentinel_right a h2]
      rw [show List.filterMap id (none :: rest) = List.filterMap id rest by simp]
      exact ih a (fun x hx => h1 x (by simpa using hx)) h2
    | some b =>
      have hb : b < sentinel := h1 b (by simp)
      rw [List.map_cons,
        show minAccum (some a) ((Option.getD (some b) sentinel) :: _) =
          minAccum (some (pymin a (Option.getD (some b) sentinel))) _ from rfl]
      rw [show Option.getD (some b) sentinel = b from rfl]
      rw [show List.filterMap id (some b :: rest) = b :: List.filterMap id rest by simp]
      rw [List.foldl_cons]
      refine ih (pymin a b) (fun x hx => h1 x (by simp [hx])) ?_
      rcases pymin_eq_or a b with h | h <;> rw [h]
      · exact h2
      · exact le_of_lt hb

theorem minAccum_none_of_ne_nil (ds : List PyStr) (h : ds ≠ []) :
    minAccum none ds = minAccum (some sentinel) ds := by
  cases ds with
  | nil => exact absurd rfl h
  | cons d rest => rfl

end INat

/-! ## `title_case` -/

namespace INat

theorem pySplitAux_ne_nil (l : PyStr) (cur : PyStr) (w : PyStr)
    (hw : w ∈ pySplitAux l cur) : w ≠ [] := by
  induction l generalizing cur with
  | nil =>
    unfold pySplitAux at hw
    by_cases h : cur = []
    · simp [h] at hw
    · rw [if_neg h] at hw
      rw [List.mem_singleton] at hw
      subst hw
      simpa using h
  | cons c rest ih =>
    unfold pySplitAux at hw
    by_cases hc : c.isWhitespace
    · rw [if_pos hc] at hw
      by_cases h : cur = []
      · rw [if_pos h] at hw
        exact ih [] hw
      · rw [if_neg h] at hw
        rw [List.mem_cons] at hw
        rcases hw with hw | hw
        · subst hw
          simpa using h
        · exact ih [] hw
    · rw [if_neg hc] at hw
      exact ih (c :: cur) hw

theorem mapWordTitle_total (ws : List PyStr) (h : ∀ w ∈ ws, w ≠ []) :
    ∃ ts, mapWordTitle ws = some ts := by
  induction ws with
  | nil => exact ⟨[], rfl⟩
  | cons w rest ih =>
    obtain ⟨ts, hts⟩ := ih (fun v hv => h v (List.mem_cons_of_mem w hv))
    cases w with
    | nil => exact absurd rfl (h [] (List.mem_cons_self _ _))
    | cons c cs =>
      refine ⟨(c.toUpper :: cs) :: ts, ?_⟩
      unfold mapWordTitle wordTitle
      rw [hts]

theorem titleCase_isSome (s : PyStr) : (titleCase s).isSome := by
  obtain ⟨ts, hts⟩ :=
    mapWordTitle_total (pySplit s) (fun w hw => pySplitAux_ne_nil s [] w hw)
  unfold titleCase
  rw [hts]
  rfl

theorem pySplitAux_whitespace (l : PyStr) (h : ∀ c ∈ l, c.isWhitespace) :
    pySplitAux l [] = [] := by
  induction l with
  | nil => rfl
  | cons c rest ih =>
    unfold pySplitAux
    rw [if_pos (h c (List.mem_cons_self _ _)), if_pos rfl]
    exact ih (fun x hx => h x (List.mem_cons_of_mem c hx))

theorem titleCase_whitespace (s : PyStr) (h : ∀ c ∈ s, c.isWhitespace) :
    titleCase s = some [] := by
  unfold titleCase pySplit
  rw [pySplitAux_whitespace s h]
  rfl

end INat

/-! ## The claims -/

namespace INat

/-- C5: on the spec's two-observation example (subspecies 10 with ancestor
chain [1, 2, 10] observed 2023-01-05, species 2 observed 2023-01-10) the
reducer outputs exactly one leaf entry, for taxon id 2, with first-observed
date "2023-01-05", and the report renders the scientific name "Foo Bar". -/
theorem example_two_observations :
    (leafOutput
        [⟨1, some (pys "2023-01-05"),
          some ⟨10, some (pys "subspecies"), [1, 2, 10], some (pys "Foo bar baz"), none⟩⟩,
         ⟨2, some (pys "2023-01-10"),
          some ⟨2, some (pys "species"), [], some (pys "Foo bar"), none⟩⟩]).map Prod.fst = [2]
    ∧ finalRows
        [⟨1, some (pys "2023-01-05"),
          some ⟨10, some (pys "subspecies"), [1, 2, 10], some (pys "Foo bar baz"), none⟩⟩,
         ⟨2, some (pys "2023-01-10"),
          some ⟨2, some (pys "species"), [], some (pys "Foo bar"), none⟩⟩] =
      some [[pys "1", pys "2023-01-05", UNKNOWN, pys "Foo Bar", pys "Species",
             pys "https://www.inaturalist.org/taxa/2"]] := by
  constructor
  · decide
  · decide

/-- C1: an undated leaf taxon (id 5) is kept in the leaf set and sorts after
the dated entry (id 6), but producing its report row FAILS: the source indexes
`taxon_id_to_date_first_observed[taxon_id]` directly (line 167), which raises
`KeyError` for a taxon with no recorded date, instead of using the sentinel
that the sort key uses. -/
theorem undated_leaf_row_fails :
    (leafOutput
        [⟨1, none, some ⟨5, some (pys "species"), [], some (pys "Alpha"), none⟩⟩,
         ⟨2, some (pys "2023-01-01"),
          some ⟨6, some (pys "species"), [], some (pys "Beta"), none⟩⟩]).map Prod.fst = [6, 5]
    ∧ finalRows
        [⟨1, none, some ⟨5, some (pys "species"), [], some (pys "Alpha"), none⟩⟩,
         ⟨2, some (pys "2023-01-01"),
          some ⟨6, some (pys "species"), [], some (pys "Beta"), none⟩⟩] = none := by
  constructor
  · decide
  · decide

/-- C4: the persist procedure of `fetch_observations` (lines 289-290) is a
direct `open(obs_cache_fp, "w")` followed by `json.dump`: the `open` truncates
the previous cache in place, so its crash-state sequence contains a state with
no recoverable content — it is not a write-to-temp-then-rename. -/
theorem persist_truncates_in_place :
    ∃ st ∈ persistStates [⟨1, some (pys "2023-01-01"), none⟩]
        [⟨1, some (pys "2023-01-01"), none⟩, ⟨2, some (pys "2023-01-02"), none⟩],
      contentOf st = none :=
  ⟨CacheFileState.truncated, by simp [persistStates], rfl⟩

/-- C2 counterexample: on the spec's own example, the post-collapse leaf
output is exactly the species id 2, and taxon 10 — a different observed
taxon — carries 2 in its stored ancestor list. So a taxon id in the final
(post-collapse) output CAN appear in another observed taxon's ancestor
list. -/
theorem leaf_ancestor_counterexample :
    Dict.keys (collapseAll
        (taxonMaps
          [⟨1, some (pys "2023-01-05"),
            some ⟨10, some (pys "subspecies"), [1, 2, 10], some (pys "Foo bar baz"), none⟩⟩,
           ⟨2, some (pys "2023-01-10"),
            some ⟨2, some (pys "species"), [], some (pys "Foo bar"), none⟩⟩]).1
        (taxonMaps
          [⟨1, some (pys "2023-01-05"),
            some ⟨10, some (pys "subspecies"), [1, 2, 10], some (pys "Foo bar baz"), none⟩⟩,
           ⟨2, some (pys "2023-01-10"),
            some ⟨2, some (pys "species"), [], some (pys "Foo bar"), none⟩⟩]).2).1 = [2]
    ∧ ((taxonMaps
          [⟨1, some (pys "2023-01-05"),
            some ⟨10, some (pys "subspecies"), [1, 2, 10], some (pys "Foo bar baz"), none⟩⟩,
           ⟨2, some (pys "2023-01-10"),
            some ⟨2, some (pys "species"), [], some (pys "Foo bar"), none⟩⟩]).1.filter
        (fun p => decide (2 ∈ p.2.ancestor_ids))).map Prod.fst = [10] := by
  constructor
  · decide
  · decide

/-- C2 amended: before rank collapsing, the property does hold — every key of
the leaf-candidate set (the output of ancestor exclusion) appears zero times
in the stored ancestor lists of the whole dataset. -/
theorem precollapse_leaf_not_ancestor (obs : List Observation) (k : Nat)
    (hk : k ∈ Dict.keys (leafCandidates (taxonMaps obs).1)) :
    (allAncestorIds (taxonMaps obs).1).count k = 0 := by
  rw [List.count_eq_zero]
  unfold Dict.keys at hk
  rw [List.mem_map] at hk
  obtain ⟨q, hq, rfl⟩ := hk
  exact ((mem_leafCandidates (taxonMaps obs).1 q).1 hq).2

/-- C2 amended, witness at the example input: leaf-candidate key 10. -/
theorem precollapse_leaf_not_ancestor_witness :
    (allAncestorIds (taxonMaps
        [⟨1, some (pys "2023-01-05"),
          some ⟨10, some (pys "subspecies"), [1, 2, 10], some (pys "Foo bar baz"), none⟩⟩,
         ⟨2, some (pys "2023-01-10"),
          some ⟨2, some (pys "species"), [], some (pys "Foo bar"), none⟩⟩]).1).count 10 = 0 :=
  precollapse_leaf_not_ancestor _ 10 (by decide)

end INat

namespace INat

set_option maxRecDepth 8000 in
/-- C3 counterexample: a full first page (200 records) followed by a 422.
The fetch returns 200 records — not the (empty) cache — and persists them:
the source only breaks out of the loop on 422, and the merge/persist branch
afterwards runs whenever `new_observations` is non-empty. -/
theorem fetch422_persists_counterexample :
    (fetchObservations []
        [⟨200, (List.range PER_PAGE).map (fun i => ⟨i, none, none⟩)⟩, ⟨422, []⟩]).map
      (fun r => (r.returned.length, r.cacheWrite.isSome)) = some (200, true) := by
  decide

/-- C3 amended: the 422 abort is immediate — the loop stops without consuming
any further scripted response — and when the 422 arrives before any page
succeeded, the fetch returns exactly the cached data and rewrites nothing.
(Records from earlier successful pages are, however, still merged and
persisted, as the counterexample shows.) -/
theorem abort422_returns_cache (cache acc : List Observation)
    (r : HttpResponse) (rest : List HttpResponse) (h : r.status = 422) :
    fetchLoop (r :: rest) acc = some (acc, false)
    ∧ fetchObservations cache (r :: rest) = some ⟨cache, none⟩ := by
  have hloop : ∀ a : List Observation, fetchLoop (r :: rest) a = some (a, false) := by
    intro a
    unfold fetchLoop
    rw [h]
    simp
  constructor
  · exact hloop acc
  · unfold fetchObservations
    rw [hloop []]
    simp

/-- C3 amended, witness: 422 on the first page with a pending (ignored)
scripted success and a non-empty cache. -/
theorem abort422_returns_cache_witness :
    fetchLoop [⟨422, []⟩, ⟨200, [⟨9, none, none⟩]⟩] [⟨3, none, none⟩] =
      some ([⟨3, none, none⟩], false)
    ∧ fetchObservations [⟨1, some (pys "2023-01-01"), none⟩]
        [⟨422, []⟩, ⟨200, [⟨9, none, none⟩]⟩] =
      some ⟨[⟨1, some (pys "2023-01-01"), none⟩], none⟩ :=
  abort422_returns_cache [⟨1, some (pys "2023-01-01"), none⟩] [⟨3, none, none⟩]
    ⟨422, []⟩ [⟨200, [⟨9, none, none⟩]⟩] rfl

/-- C8: when the page loop finds no new records, the fetch returns the cached
list unchanged and the cache file is not rewritten (`cacheWrite = none`);
the write happens only in the non-empty branch of the source. -/
theorem no_new_observations_no_write (cache : List Observation)
    (script : List HttpResponse) (valid : Bool)
    (h : fetchLoop script [] = some ([], valid)) :
    fetchObservations cache script = some ⟨cache, none⟩ := by
  unfold fetchObservations
  rw [h]
  simp

/-- C8 witness: an empty first page over a one-record cache. -/
theorem no_new_observations_no_write_witness :
    fetchObservations [⟨1, some (pys "2023-01-01"), none⟩] [⟨200, []⟩] =
      some ⟨[⟨1, some (pys "2023-01-01"), none⟩], none⟩ :=
  no_new_observations_no_write [⟨1, some (pys "2023-01-01"), none⟩] [⟨200, []⟩]
    true rfl

/-- C9 counterexample: the merged set CAN hold an id twice. Dedup is only
against cached ids, so a fetched batch [7, 8, 8] over a cache holding id 7
(the fetched ids do duplicate a cached id) merges to ids [7, 8, 8]. -/
theorem merge_duplicate_counterexample :
    (fetchObservations [⟨7, none, none⟩]
        [⟨200, [⟨7, none, none⟩, ⟨8, none, none⟩, ⟨8, none, none⟩]⟩]).map
      (fun r => r.returned.map Observation.id) = some [7, 8, 8]
    ∧ (fetchObservations [⟨7, none, none⟩]
        [⟨200, [⟨7, none, none⟩, ⟨8, none, none⟩, ⟨8, none, none⟩]⟩]).map
      (fun r => decide (r.returned.map Observation.id).Nodup) = some false := by
  constructor
  · decide
  · decide

/-- C9 amended: when the cached ids are pairwise distinct and the fetched
batch's ids are pairwise distinct, the merged set has no duplicate id even
when the fetched batch overlaps the cache — the overlap is filtered out
against the cached ids before merging. -/
theorem merge_nodup_ids (cache : List Observation) (script : List HttpResponse)
    (newObs : List Observation) (valid : Bool) (res : FetchResult)
    (hloop : fetchLoop script [] = some (newObs, valid))
    (hcache : (cache.map Observation.id).Nodup)
    (hnew : (newObs.map Observation.id).Nodup)
    (hres : fetchObservations cache script = some res) :
    (res.returned.map Observation.id).Nodup := by
  unfold fetchObservations at hres
  rw [hloop] at hres
  have hres2 : (if newObs = [] then (some ⟨cache, none⟩ : Option FetchResult)
      else some ⟨mergeObservations cache newObs,
        some (mergeObservations cache newObs)⟩) = some res := hres
  by_cases hempty : newObs = []
  · rw [if_pos hempty] at hres2
    obtain rfl : (⟨cache, none⟩ : FetchResult) = res := Option.some.inj hres2
    exact hcache
  · rw [if_neg hempty] at hres2
    obtain rfl : (⟨mergeObservations cache newObs,
        some (mergeObservations cache newObs)⟩ : FetchResult) = res :=
      Option.some.inj hres2
    show ((mergeObservations cache newObs).map Observation.id).Nodup
    unfold mergeObservations
    rw [List.map_append, List.nodup_append]
    refine ⟨hcache, ?_, ?_⟩
    · exact hnew.sublist ((List.filter_sublist newObs).map Observation.id)
    · intro a ha hb
      rw [List.mem_map] at ha hb
      obtain ⟨c, hc, rfl⟩ := ha
      obtain ⟨o, ho, hoe⟩ := hb
      rw [List.mem_filter] at ho
      have : cache.any (fun c2 => c2.id == o.id) = true :=
        List.any_eq_true.2 ⟨c, hc, by rw [hoe]; exact beq_self_eq_true c.id⟩
      rw [this] at ho
      exact absurd ho.2 (by simp)

/-- C9 amended, witness: an overlapping fetch ([7, 8] over a cache holding 7)
merges to distinct ids [7, 8]. -/
theorem merge_nodup_ids_witness :
    ((FetchResult.mk [⟨7, none, none⟩, ⟨8, none, none⟩]
        (some [⟨7, none, none⟩, ⟨8, none, none⟩])).returned.map Observation.id).Nodup :=
  merge_nodup_ids [⟨7, none, none⟩] [⟨200, [⟨7, none, none⟩, ⟨8, none, none⟩]⟩]
    [⟨7, none, none⟩, ⟨8, none, none⟩] true
    ⟨[⟨7, none, none⟩, ⟨8, none, none⟩], some [⟨7, none, none⟩, ⟨8, none, none⟩]⟩
    (by decide) (by decide) (by decide) (by decide)

end INat

namespace INat

/-- C6 counterexample: subspecies 5 has species ancestor 0 present among the
observed taxa, yet the output keeps the subspecies (key 5), not the species:
the source's `if species_id:` truthiness test treats a found species whose
taxon id is 0 as "not found". -/
theorem collapse_zero_id_counterexample :
    Dict.find? (taxonMaps
        [⟨1, none, some ⟨5, some (pys "subspecies"), [0], some (pys "n"), none⟩⟩,
         ⟨2, none, some ⟨0, some (pys "species"), [], some (pys "m"), none⟩⟩]).1 0 =
      some ⟨0, some (pys "species"), [], some (pys "m"), []⟩
    ∧ Dict.find? (taxonMaps
        [⟨1, none, some ⟨5, some (pys "subspecies"), [0], some (pys "n"), none⟩⟩,
         ⟨2, none, some ⟨0, some (pys "species"), [], some (pys "m"), none⟩⟩]).1 5 =
      some ⟨5, some (pys "subspecies"), [0], some (pys "n"), []⟩
    ∧ Dict.keys (collapseAll
        (taxonMaps
          [⟨1, none, some ⟨5, some (pys "subspecies"), [0], some (pys "n"), none⟩⟩,
           ⟨2, none, some ⟨0, some (pys "species"), [], some (pys "m"), none⟩⟩]).1
        (taxonMaps
          [⟨1, none, some ⟨5, some (pys "subspecies"), [0], some (pys "n"), none⟩⟩,
           ⟨2, none, some ⟨0, some (pys "species"), [], some (pys "m"), none⟩⟩]).2).1 = [5] := by
  refine ⟨?_, ?_, ?_⟩ <;> decide

/-- C6 amended: an infra-ranked leaf candidate whose nearest species ancestor
(found by the source's reverse scan) has a NONZERO taxon id is replaced by
that species: the species' id is in the output key set, the candidate's own
key appears zero times, and the output keys are pairwise distinct (so the
species appears exactly once however many descendants collapse into it). -/
theorem collapse_replaces_infra (obs : List Observation) (p : Nat × TaxonInfo)
    (sid : Nat) (parent : TaxonInfo)
    (hp : p ∈ leafCandidates (taxonMaps obs).1)
    (hrank : pyLower (p.2.rank.getD []) ∈ INFRARANKS)
    (hfind : findSpeciesAncestor (taxonMaps obs).1 p.2.ancestor_ids.reverse =
      some (sid, parent))
    (hsid : sid ≠ 0) :
    parent.id ∈
      Dict.keys (collapseAll (taxonMaps obs).1 (taxonMaps obs).2).1
    ∧ (Dict.keys (collapseAll (taxonMaps obs).1 (taxonMaps obs).2).1).count p.1 = 0
    ∧ (Dict.keys (collapseAll (taxonMaps obs).1 (taxonMaps obs).2).1).Nodup := by
  have ht : collapseTarget (taxonMaps obs).1 p = some (sid, parent) := by
    unfold collapseTarget
    rw [if_pos hrank, hfind]
    show (if sid = 0 then none else some (sid, parent) : Option (Nat × TaxonInfo)) =
      some (sid, parent)
    rw [if_neg hsid]
  have hnodupinfos : (Dict.keys (taxonMaps obs).1).Nodup := taxonMaps_nodup_keys obs
  have hnodupleaves : (Dict.keys (leafCandidates (taxonMaps obs).1)).Nodup :=
    leafCandidates_nodup_keys _ hnodupinfos
  refine ⟨?_, ?_, ?_⟩
  · have h := collapseFold_keys_of_mem (taxonMaps obs).1
      (leafCandidates (taxonMaps obs).1) ([], (taxonMaps obs).2) p hp
    rw [show stepKey (taxonMaps obs).1 p = parent.id by unfold stepKey; rw [ht]] at h
    exact h
  · rw [List.count_eq_zero]
    intro hmem
    rcases collapseFold_keys_src (taxonMaps obs).1
        (leafCandidates (taxonMaps obs).1) ([], (taxonMaps obs).2) p.1 hmem with
      habs | ⟨q, hq, hqk⟩
    · simp [Dict.keys] at habs
    · cases hqt : collapseTarget (taxonMaps obs).1 q with
      | none =>
        have hq1 : q.1 = p.1 := by
          rw [show stepKey (taxonMaps obs).1 q = q.1 by unfold stepKey; rw [hqt]] at hqk
          exact hqk
        have : q = p := List.inj_on_of_nodup_map hnodupleaves hq hp hq1
        rw [this, ht] at hqt
        exact Option.noConfusion hqt
      | some sp =>
        have hid : sp.2.id = sp.1 := collapseTarget_id obs q sp hqt
        obtain ⟨-, -, -, hfindq, hrankq⟩ := collapseTarget_spec _ q sp hqt
        have hsp1 : sp.1 = p.1 := by
          rw [show stepKey (taxonMaps obs).1 q = sp.2.id by unfold stepKey; rw [hqt]] at hqk
          rw [← hid]
          exact hqk
        have hpinfos : p ∈ (taxonMaps obs).1 :=
          ((mem_leafCandidates (taxonMaps obs).1 p).1 hp).1
        have hfindp : Dict.find? (taxonMaps obs).1 p.1 = some p.2 :=
          Dict.find?_eq_some_of_mem _ _ _ hnodupinfos hpinfos
    
        rw [hsp1, hfindp] at hfindq
        have hpp : sp.2 = p.2 := Option.some.inj hfindq.symm
        rw [hpp] at hrankq
        rw [hrankq] at hrank
        exact absurd hrank (by decide)
  · exact collapseFold_nodup_keys _ _ _ (by simp [Dict.keys])

/-- C6 amended, witness at the spec's example: subspecies 10 collapses into
species 2 (nonzero id), which appears exactly once in the output, while key
10 is gone. -/
theorem collapse_replaces_infra_witness :
    2 ∈ Dict.keys (collapseAll
        (taxonMaps
          [⟨1, some (pys "2023-01-05"),
            some ⟨10, some (pys "subspecies"), [1, 2, 10], some (pys "Foo bar baz"), none⟩⟩,
           ⟨2, some (pys "2023-01-10"),
            some ⟨2, some (pys "species"), [], some (pys "Foo bar"), none⟩⟩]).1
        (taxonMaps
          [⟨1, some (pys "2023-01-05"),
            some ⟨10, some (pys "subspecies"), [1, 2, 10], some (pys "Foo bar baz"), none⟩⟩,
           ⟨2, some (pys "2023-01-10"),
            some ⟨2, some (pys "species"), [], some (pys "Foo bar"), none⟩⟩]).2).1
    ∧ (Dict.keys (collapseAll
        (taxonMaps
          [⟨1, some (pys "2023-01-05"),
            some ⟨10, some (pys "subspecies"), [1, 2, 10], some (pys "Foo bar baz"), none⟩⟩,
           ⟨2, some (pys "2023-01-10"),
            some ⟨2, some (pys "species"), [], some (pys "Foo bar"), none⟩⟩]).1
        (taxonMaps
          [⟨1, some (pys "2023-01-05"),
            some ⟨10, some (pys "subspecies"), [1, 2, 10], some (pys "Foo bar baz"), none⟩⟩,
           ⟨2, some (pys "2023-01-10"),
            some ⟨2, some (pys "species"), [], some (pys "Foo bar"), none⟩⟩]).2).1).count 10 = 0
    ∧ (Dict.keys (collapseAll
        (taxonMaps
          [⟨1, some (pys "2023-01-05"),
            some ⟨10, some (pys "subspecies"), [1, 2, 10], some (pys "Foo bar baz"), none⟩⟩,
           ⟨2, some (pys "2023-01-10"),
            some ⟨2, some (pys "species"), [], some (pys "Foo bar"), none⟩⟩]).1
        (taxonMaps
          [⟨1, some (pys "2023-01-05"),
            some ⟨10, some (pys "subspecies"), [1, 2, 10], some (pys "Foo bar baz"), none⟩⟩,
           ⟨2, some (pys "2023-01-10"),
            some ⟨2, some (pys "species"), [], some (pys "Foo bar"), none⟩⟩]).2).1).Nodup := by
  have h := collapse_replaces_infra
    [⟨1, some (pys "2023-01-05"),
      some ⟨10, some (pys "subspecies"), [1, 2, 10], some (pys "Foo bar baz"), none⟩⟩,
     ⟨2, some (pys "2023-01-10"),
      some ⟨2, some (pys "species"), [], some (pys "Foo bar"), none⟩⟩]
    (10, ⟨10, some (pys "subspecies"), [1, 2], some (pys "Foo bar baz"), []⟩)
    2 ⟨2, some (pys "species"), [], some (pys "Foo bar"), []⟩
    (by decide) (by decide) (by decide) (by decide)
  exact h

end INat

namespace INat

/-- C7: for a species `s` that at least one leaf candidate collapses into,
the date recorded for `s` after the collapse loop is exactly the minimum of
the known first-observed dates involved: `s`'s own step-1 entry (the minimum
over its direct observations) and the step-1 entries of every candidate that
collapses into it. Candidates with no recorded date contribute nothing
(`knownDates` skips them); the hypotheses say some date is known at all and
that the involved dates are genuine dates (below the source's sentinel
"9999-99-99", as ISO dates are). -/
theorem collapsed_species_date_min (obs : List Observation) (s : Nat)
    (_hne : collapsedInto obs s ≠ [])
    (hkne : knownDates obs s ≠ [])
    (hval : ∀ d ∈ knownDates obs s, d < sentinel) :
    ∃ m, Dict.find? (collapseAll (taxonMaps obs).1 (taxonMaps obs).2).2 s = some m
      ∧ m ∈ knownDates obs s ∧ ∀ d ∈ knownDates obs s, m ≤ d := by
  have hdisj : ∀ q ∈ leafCandidates (taxonMaps obs).1, ∀ sp,
      collapseTarget (taxonMaps obs).1 q = some sp →
      ∀ q' ∈ leafCandidates (taxonMaps obs).1, sp.2.id ≠ q'.1 := by
    intro q hq sp hsp q' hq' he
    have hid : sp.2.id = sp.1 := collapseTarget_id obs q sp hsp
    obtain ⟨-, -, hmem, -, -⟩ := collapseTarget_spec _ q sp hsp
    have hqin : q ∈ (taxonMaps obs).1 := ((mem_leafCandidates _ q).1 hq).1
    have hall : sp.1 ∈ allAncestorIds (taxonMaps obs).1 :=
      mem_allAncestorIds _ q hqin sp.1 hmem
    have hq'n : q'.1 ∉ allAncestorIds (taxonMaps obs).1 :=
      ((mem_leafCandidates _ q').1 hq').2
    apply hq'n
    rw [← he, hid]
    exact hall
  have hfold2 : Dict.find? (collapseAll (taxonMaps obs).1 (taxonMaps obs).2).2 s =
      minAccum (Dict.find? (taxonMaps obs).2 s)
        (((leafCandidates (taxonMaps obs).1).filter
            (collapsesInto (taxonMaps obs).1 s)).map
          (fun q => (Dict.find? (taxonMaps obs).2 q.1).getD sentinel)) :=
    collapseFold_dates (taxonMaps obs).1 (taxonMaps obs).2 s
      (leafCandidates (taxonMaps obs).1) ([], (taxonMaps obs).2) hdisj
      (fun q _ => rfl)
  have hsplit : ((leafCandidates (taxonMaps obs).1).filter
        (collapsesInto (taxonMaps obs).1 s)).map
      (fun q => (Dict.find? (taxonMaps obs).2 q.1).getD sentinel) =
      ((collapsedInto obs s).map (fun q => Dict.find? (taxonMaps obs).2 q.1)).map
        (fun o => o.getD sentinel) := by
    rw [List.map_map]
    rfl
  have hfm : ((collapsedInto obs s).map
        (fun q => Dict.find? (taxonMaps obs).2 q.1)).filterMap id =
      (collapsedInto obs s).filterMap (fun q => Dict.find? (taxonMaps obs).2 q.1) := by
    simp
  have h1 : ∀ x ∈ ((collapsedInto obs s).map
      (fun q => Dict.find? (taxonMaps obs).2 q.1)).filterMap id, x < sentinel := by
    rw [hfm]
    intro x hx
    exact hval x (show x ∈ knownDates obs s from List.mem_append_right _ hx)
  cases hd : Dict.find? (taxonMaps obs).2 s with
  | some a =>
    have hknown_eq : knownDates obs s =
        a :: (collapsedInto obs s).filterMap
          (fun q => Dict.find? (taxonMaps obs).2 q.1) := by
      unfold knownDates
      rw [hd]
      rfl
    have ha : a < sentinel := hval a (by rw [hknown_eq]; exact List.mem_cons_self _ _)
    refine ⟨List.foldl pymin a ((collapsedInto obs s).filterMap
      (fun q => Dict.find? (taxonMaps obs).2 q.1)), ?_, ?_, ?_⟩
    · rw [hfold2, hd, hsplit, minAccum_known _ a h1 (le_of_lt ha), hfm]
    · rw [hknown_eq]
      exact (foldl_pymin_least _ a).1
    · intro d hdm
      rw [hknown_eq] at hdm
      exact (foldl_pymin_least _ a).2 d hdm
  | none =>
    have hknown_eq : knownDates obs s =
        (collapsedInto obs s).filterMap
          (fun q => Dict.find? (taxonMaps obs).2 q.1) := by
      unfold knownDates
      rw [hd]
      rfl
    have hmapne : (((collapsedInto obs s).map
        (fun q => Dict.find? (taxonMaps obs).2 q.1)).map
          (fun o => o.getD sentinel)) ≠ [] := by
      intro hcon
    
      rw [List.map_eq_nil_iff, List.map_eq_nil_iff] at hcon
      apply hkne
      rw [hknown_eq, hcon]
      rfl
    cases hL : (collapsedInto obs s).filterMap
        (fun q => Dict.find? (taxonMaps obs).2 q.1) with
    | nil =>
      exact absurd (by rw [hknown_eq, hL]) hkne
    | cons l0 L' =>
      have hl0 : l0 < sentinel :=
        hval l0 (by rw [hknown_eq, hL]; exact List.mem_cons_self _ _)
      refine ⟨List.foldl pymin l0 L', ?_, ?_, ?_⟩
      · rw [hfold2, hd, hsplit, minAccum_none_of_ne_nil _ hmapne,
          minAccum_known _ sentinel h1 le_rfl, hfm, hL, List.foldl_cons,
          pymin_sentinel_left l0 hl0]
      · rw [hknown_eq, hL]
        exact (foldl_pymin_least L' l0).1
      · intro d hdm
        rw [hknown_eq, hL] at hdm
        exact (foldl_pymin_least L' l0).2 d hdm

/-- C7 witness: species 20 collapsed into by subspecies 30; its recorded date
is the minimum "2023-02-02" of its own "2023-03-03" and the subspecies'
"2023-02-02". -/
theorem collapsed_species_date_min_witness :
    ∃ m, Dict.find? (collapseAll
        (taxonMaps
          [⟨1, some (pys "2023-02-02"),
            some ⟨30, some (pys "subspecies"), [20], some (pys "Sp one"), none⟩⟩,
           ⟨2, some (pys "2023-03-03"),
            some ⟨20, some (pys "species"), [], some (pys "Sp"), none⟩⟩]).1
        (taxonMaps
          [⟨1, some (pys "2023-02-02"),
            some ⟨30, some (pys "subspecies"), [20], some (pys "Sp one"), none⟩⟩,
           ⟨2, some (pys "2023-03-03"),
            some ⟨20, some (pys "species"), [], some (pys "Sp"), none⟩⟩]).2).2 20 = some m
      ∧ m ∈ knownDates
          [⟨1, some (pys "2023-02-02"),
            some ⟨30, some (pys "subspecies"), [20], some (pys "Sp one"), none⟩⟩,
           ⟨2, some (pys "2023-03-03"),
            some ⟨20, some (pys "species"), [], some (pys "Sp"), none⟩⟩] 20
      ∧ ∀ d ∈ knownDates
          [⟨1, some (pys "2023-02-02"),
            some ⟨30, some (pys "subspecies"), [20], some (pys "Sp one"), none⟩⟩,
           ⟨2, some (pys "2023-03-03"),
            some ⟨20, some (pys "species"), [], some (pys "Sp"), none⟩⟩] 20, m ≤ d :=
  collapsed_species_date_min
    [⟨1, some (pys "2023-02-02"),
      some ⟨30, some (pys "subspecies"), [20], some (pys "Sp one"), none⟩⟩,
     ⟨2, some (pys "2023-03-03"),
      some ⟨20, some (pys "species"), [], some (pys "Sp"), none⟩⟩] 20
    (by decide) (by decide) (by decide)

/-- C10: `title_case` is total on strings — every whitespace-split token is
non-empty, so `word[0]` never raises — and an empty or whitespace-only input
yields the empty string, which the report's `or UNKNOWN` renders as the
literal unknown marker. -/
theorem title_case_total (s : PyStr) :
    (titleCase s).isSome
    ∧ ((∀ c ∈ s, c.isWhitespace) →
        titleCase s = some [] ∧ renderName s = some UNKNOWN) := by
  refine ⟨titleCase_isSome s, fun h => ⟨titleCase_whitespace s h, ?_⟩⟩
  unfold renderName
  rw [titleCase_whitespace s h]
  rfl

/-- C10 witness at a whitespace-only input. -/
theorem title_case_total_witness :
    (titleCase (pys " ")).isSome
    ∧ ((∀ c ∈ pys " ", c.isWhitespace) →
        titleCase (pys " ") = some [] ∧ renderName (pys " ") = some UNKNOWN) :=
  title_case_total (pys " ")

end INat
